import Mathlib

/-!
Verification development for the `aste` code generator: a shallow embedding
of the JSON type-inference routine (`src/aste/utils/json_schema.py`), the
data-structure builders (`src/aste/datastructures/builders.py` and
`base.py`), and the builder factory (`src/aste/datastructures/factory.py`),
together with theorems settling the specification's claims about them.
-/

set_option maxRecDepth 10000

/-- A Python runtime value as seen by `infer_python_type`: `null`, `bool`,
`int`, `float`, `str`, `list`, `dict` (an insertion-ordered sequence of
key/value pairs, keys of any value kind as in Python), or any other value
kind (`other`).  Floats carry no payload: only their kind matters to the
code under verification. -/
inductive Json where
  | null : Json
  | bool (b : Bool) : Json
  | int (n : Int) : Json
  | float : Json
  | str (s : String) : Json
  | arr (xs : List Json) : Json
  | obj (kvs : List (Json × Json)) : Json
  | other : Json

/-- Embedding of `infer_python_type` from `src/aste/utils/json_schema.py`.
The Python source is an `if`/`elif` chain testing `None`, `bool`, `int`,
`float`, `str`, `list`, `dict` in that order (so a `bool` never reaches the
`int` branch, since `isinstance(value, bool)` is tested first), with a final
`else` returning `"Any"`; the `list` branch recurses on the first element
and the `dict` branch on the first key/value pair. -/
def infer_python_type : Json → String
  | .null => "None"
  | .bool _ => "bool"
  | .int _ => "int"
  | .float => "float"
  | .str _ => "str"
  | .arr [] => "list[Any]"
  | .arr (x :: _) => "list[" ++ infer_python_type x ++ "]"
  | .obj [] => "dict[str, Any]"
  | .obj ((k, v) :: _) =>
      "dict[" ++ infer_python_type k ++ ", " ++ infer_python_type v ++ "]"
  | .other => "Any"

/-- Python `dict` assignment `m[k] = v` on an insertion-ordered association
list: if the key is present its value is replaced in place, otherwise the
pair is appended at the end. -/
def dictInsert {A : Type} (m : List (String × A)) (k : String) (v : A) :
    List (String × A) :=
  if m.any (fun kv => kv.1 = k) then
    m.map (fun kv => if kv.1 = k then (k, v) else kv)
  else
    m ++ [(k, v)]

/-- Embedding of `infer_fields_from_json` from
`src/aste/utils/json_schema.py`: starting from an empty dict, for each
`(key, value)` of `data` in insertion order perform
`fields[key] = infer_python_type(value)`. -/
def infer_fields_from_json (data : List (String × Json)) :
    List (String × String) :=
  data.foldl (fun fields kv => dictInsert fields kv.1 (infer_python_type kv.2)) []

/-! ## The Python AST fragment the builders emit

The builders construct `ast.Module` nodes whose body is a list of
`ast.ImportFrom` statements followed by one `ast.ClassDef` whose body holds
only simple `ast.AnnAssign` statements (`Name` target, `Name` annotation,
`simple=1`, no value) and `ast.Pass`, whose bases and decorators are plain
`ast.Name` expressions, and whose keywords and type parameters are empty.
The embedding covers exactly this fragment. -/

/-- A statement of a generated class body: `ast.AnnAssign` with `Name`
target `target` and `Name` annotation whose id is `typ` (as built by
`_build_body_nodes`), or `ast.Pass`. -/
inductive BodyStmt where
  | annAssign (target : String) (typ : String) : BodyStmt
  | passStmt : BodyStmt
deriving Repr, DecidableEq

/-- An `ast.ImportFrom` node with `level=0`: `from <module> import <names>`. -/
structure PyImportFrom where
  module : String
  names : List String
deriving Repr, DecidableEq

/-- The `ast.ClassDef` node built by `DataStructureBuilder.build`: bases and
decorators are `ast.Name` expressions, recorded by their identifier. -/
structure PyClassDef where
  name : String
  bases : List String
  decorators : List String
  body : List BodyStmt
deriving Repr, DecidableEq

/-- The `ast.Module` node built by `DataStructureBuilder.build`:
`[*import_nodes, class_node]`. -/
structure PyModule where
  imports : List PyImportFrom
  cls : PyClassDef
deriving Repr, DecidableEq

/-- `maybe_newline` of CPython's `ast._Unparser`: append a newline unless
the generated source is still empty. -/
def maybeNL (s : String) : String :=
  if s = "" then s else s ++ "\n"

/-- Unparse one `ast.ImportFrom` node appended to the source built so far,
as CPython's `ast._Unparser.visit_ImportFrom` does at top level:
`fill("from <module> import ")` then the aliases separated by `", "`. -/
def unparseImport (s : String) (im : PyImportFrom) : String :=
  maybeNL s ++ "from " ++ im.module ++ " import " ++ String.intercalate (", ") im.names

/-- Unparse one class-body statement appended to the source built so far, at
indentation level 1 (CPython's `fill` writes a newline then four spaces per
indentation level; `visit_AnnAssign` with `simple=1` writes
`<target>: <annotation>`). -/
def unparseBody (s : String) : BodyStmt → String
  | .annAssign t ty => maybeNL s ++ "    " ++ t ++ ": " ++ ty
  | .passStmt => maybeNL s ++ "    " ++ "pass"

/-- Unparse the `ast.ClassDef` node appended to the source built so far, as
CPython's `ast._Unparser.visit_ClassDef` does: an extra `maybe_newline`, one
`@<decorator>` line per decorator, the `class <name>(<bases>):` header (the
parentheses only when there are bases), then the body at indentation 1. -/
def unparseClass (s : String) (c : PyClassDef) : String :=
  let afterDecos := c.decorators.foldl (fun a d => maybeNL a ++ "@" ++ d) (maybeNL s)
  let header := maybeNL afterDecos ++ "class " ++ c.name ++
    (if c.bases.isEmpty then "" else "(" ++ String.intercalate (", ") c.bases ++ ")") ++ ":"
  c.body.foldl unparseBody header

/-- `ast.unparse` on the modules produced by `DataStructureBuilder.build`:
the imports in order, then the class definition. -/
def unparseModule (m : PyModule) : String :=
  unparseClass (m.imports.foldl unparseImport "") m.cls

/-! ## The builders (`src/aste/datastructures/base.py`, `builders.py`) -/

/-- Embedding of the abstract class `DataStructureBuilder`: the four
capability methods `_build_imports`, `_build_body_nodes`, `_build_bases`
and `_build_decorators` (the last defaulting to no decorators). -/
structure DataStructureBuilder where
  buildImports : String → List (String × String) → List PyImportFrom
  buildBodyNodes : String → List (String × String) → List BodyStmt
  buildBases : String → List (String × String) → List String
  buildDecorators : String → List (String × String) → List String := fun _ _ => []

/-- Embedding of `DataStructureBuilder.build`: assemble the import nodes,
the class node (name, bases, body, decorators) and the module node, then
unparse.  `fields` models the Python `dict[str, str]` argument as its
insertion-ordered item list. -/
def DataStructureBuilder.build (b : DataStructureBuilder) (class_name : String)
    (fields : List (String × String)) : String :=
  unparseModule
    { imports := b.buildImports class_name fields
      cls :=
        { name := class_name
          bases := b.buildBases class_name fields
          decorators := b.buildDecorators class_name fields
          body := b.buildBodyNodes class_name fields } }

/-- The `_build_body_nodes` loop shared verbatim by all five concrete
builders: one `AnnAssign(Name(name), Name(typ), simple=1)` per field in
iteration order, and a single `Pass` when no node was produced. -/
def buildAnnAssignBody (fields : List (String × String)) : List BodyStmt :=
  let nodes := fields.foldl (fun acc kv => acc ++ [BodyStmt.annAssign kv.1 kv.2]) []
  if nodes.isEmpty then [BodyStmt.passStmt] else nodes

/-- Embedding of `TypedDictBuilder`. -/
def TypedDictBuilder : DataStructureBuilder where
  buildImports := fun _ _ => [{ module := "typing", names := ["TypedDict"] }]
  buildBodyNodes := fun _ fields => buildAnnAssignBody fields
  buildBases := fun _ _ => ["TypedDict"]

/-- Embedding of `DataclassBuilder`. -/
def DataclassBuilder : DataStructureBuilder where
  buildImports := fun _ _ => [{ module := "dataclasses", names := ["dataclass"] }]
  buildBodyNodes := fun _ fields => buildAnnAssignBody fields
  buildBases := fun _ _ => []
  buildDecorators := fun _ _ => ["dataclass"]

/-- Embedding of `PydanticBuilder`. -/
def PydanticBuilder : DataStructureBuilder where
  buildImports := fun _ _ => [{ module := "pydantic", names := ["BaseModel"] }]
  buildBodyNodes := fun _ fields => buildAnnAssignBody fields
  buildBases := fun _ _ => ["BaseModel"]

/-- Embedding of `NamedTupleBuilder`. -/
def NamedTupleBuilder : DataStructureBuilder where
  buildImports := fun _ _ => [{ module := "typing", names := ["NamedTuple"] }]
  buildBodyNodes := fun _ fields => buildAnnAssignBody fields
  buildBases := fun _ _ => ["NamedTuple"]

/-- Embedding of `AttrsBuilder`. -/
def AttrsBuilder : DataStructureBuilder where
  buildImports := fun _ _ => [{ module := "attr", names := ["define"] }]
  buildBodyNodes := fun _ fields => buildAnnAssignBody fields
  buildBases := fun _ _ => []
  buildDecorators := fun _ _ => ["define"]

/-! ## The factory (`src/aste/datastructures/factory.py`) -/

/-- The literal `mapping` dict of `DataStructureFactory.get_builder`, in
source order. -/
def factoryMapping : List (String × DataStructureBuilder) :=
  [("typed_dict", TypedDictBuilder),
   ("dataclass", DataclassBuilder),
   ("pydantic", PydanticBuilder),
   ("namedtuple", NamedTupleBuilder),
   ("attrs", AttrsBuilder)]

/-- Embedding of `DataStructureFactory.get_builder`: look the identifier up
in `mapping`; on a `KeyError`, raise
`ValueError(f"Unknown builder type: <builder_type>")` (modelled as
`Except.error` carrying the message). -/
def DataStructureFactory.get_builder (builder_type : String) :
    Except String DataStructureBuilder :=
  match factoryMapping.lookup builder_type with
  | some b => .ok b
  | none => .error ("Unknown builder type: " ++ builder_type)

/-! ## A model of Python parseability for the generated fragment

The generated source must be accepted by Python's own parser
(`ast.parse`, as the repository's `test_generated_code_is_valid_python`
tests require).  Python's parser is an external dependency, so it is
modelled here: `pythonParseable` recognises exactly the statement-level
grammar the generated modules can use — `from M import N, ...` lines,
blank lines, `@decorator` lines, one `class Name(Base, ...):` or
`class Name:` header, and a non-empty body of lines indented four spaces,
each `name: typeexpr` or `pass` — over Python's lexical rules for ASCII
identifiers (a string of alphanumerics or underscores not starting with a
digit, and not a reserved keyword) and, for annotations, expressions of the
form `atom` or `atom[arg, ...]` as the type inferrer produces.  A string
this checker accepts is a module Python's grammar accepts; the checker
rejects (among much else) headers or fields whose names are not valid
Python identifiers. -/

/-- First character of a Python (ASCII) identifier: a letter or `_`. -/
def isIdentStart (c : Char) : Bool :=
  c.isAlpha || c = '_'

/-- Continuation character of a Python (ASCII) identifier. -/
def isIdentChar (c : Char) : Bool :=
  c.isAlphanum || c = '_'

/-- Identifier-shaped character list: non-empty, identifier start, then
identifier characters. -/
def isIdentShapeL : List Char → Bool
  | [] => false
  | c :: rest => isIdentStart c && rest.all isIdentChar

/-- Python's reserved keywords (Python 3.12), which can never be used as
identifiers. -/
def pyKeywords : List String :=
  ["False", "None", "True", "and", "as", "assert", "async", "await",
   "break", "class", "continue", "def", "del", "elif", "else", "except",
   "finally", "for", "from", "global", "if", "import", "in", "is",
   "lambda", "nonlocal", "not", "or", "pass", "raise", "return", "try",
   "while", "with", "yield"]

/-- Python's reserved keywords other than the constants `None`, `True`,
`False`; the constants are still valid expression atoms (so `x: None`
parses) although they are not identifiers. -/
def pyNonAtomKeywords : List String :=
  ["and", "as", "assert", "async", "await",
   "break", "class", "continue", "def", "del", "elif", "else", "except",
   "finally", "for", "from", "global", "if", "import", "in", "is",
   "lambda", "nonlocal", "not", "or", "pass", "raise", "return", "try",
   "while", "with", "yield"]

/-- A valid Python identifier (usable as a class name, field name, base or
decorator): identifier-shaped and not a reserved keyword. -/
def isPyIdent (s : String) : Bool :=
  isIdentShapeL s.data && !(pyKeywords.contains s)

/-- Lex a maximal identifier-shaped token from the front of `cs`, returning
it and the remaining characters; fails if `cs` does not start with an
identifier character. -/
def splitIdent : List Char → Option (List Char × List Char)
  | [] => none
  | c :: rest =>
      if isIdentStart c then
        some (c :: rest.takeWhile isIdentChar, rest.dropWhile isIdentChar)
      else
        none

/-- Recogniser for the annotation expressions the generator can emit:
`atom` or `atom[arg, ...]`, where an atom is an identifier or one of the
constants `None`/`True`/`False`, and arguments are again such expressions
separated by `", "`.  In mode `true` it consumes one expression; in mode
`false` it consumes a `", "`-separated argument list followed by the
closing `]`.  `fuel` bounds the recursion depth. -/
def parseTy : Bool → Nat → List Char → Option (List Char)
  | _, 0, _ => none
  | true, fuel + 1, cs =>
      match splitIdent cs with
      | none => none
      | some (id, rest) =>
          if pyNonAtomKeywords.contains (String.mk id) then none
          else
            match rest with
            | '[' :: rest2 => parseTy false fuel rest2
            | _ => some rest
  | false, fuel + 1, cs =>
      match parseTy true fuel cs with
      | none => none
      | some rest =>
          match rest with
          | ']' :: rest2 => some rest2
          | ',' :: ' ' :: rest2 => parseTy false fuel rest2
          | _ => none

/-- A character list is a valid annotation expression when `parseTy`
consumes it entirely. -/
def isValidTypeExprL (cs : List Char) : Bool :=
  match parseTy true (2 * cs.length + 2) cs with
  | some [] => true
  | _ => false

/-- A `", "`-separated list of non-keyword identifiers consuming the whole
input (the alias list of an import statement). -/
def identListEnd : Nat → List Char → Bool
  | 0, _ => false
  | fuel + 1, cs =>
      match splitIdent cs with
      | none => false
      | some (id, rest) =>
          !(pyKeywords.contains (String.mk id)) &&
          match rest with
          | [] => true
          | ',' :: ' ' :: rest2 => identListEnd fuel rest2
          | _ => false

/-- A `", "`-separated list of non-keyword identifiers followed by exactly
`):` (the base list of a class header). -/
def identListThenColon : Nat → List Char → Bool
  | 0, _ => false
  | fuel + 1, cs =>
      match splitIdent cs with
      | none => false
      | some (id, rest) =>
          !(pyKeywords.contains (String.mk id)) &&
          match rest with
          | [')', ':'] => true
          | ',' :: ' ' :: rest2 => identListThenColon fuel rest2
          | _ => false

/-- An import line: `from <module> import <aliases>` with a non-keyword
identifier module and a non-empty alias list. -/
def isImportLine (cs : List Char) : Bool :=
  match cs with
  | 'f' :: 'r' :: 'o' :: 'm' :: ' ' :: rest =>
      match splitIdent rest with
      | some (id, ' ' :: 'i' :: 'm' :: 'p' :: 'o' :: 'r' :: 't' :: ' ' :: rest2) =>
          !(pyKeywords.contains (String.mk id)) && identListEnd (rest2.length + 1) rest2
      | _ => false
  | _ => false

/-- A decorator line: `@` followed by exactly a non-keyword identifier. -/
def isDecoLine (cs : List Char) : Bool :=
  match cs with
  | '@' :: rest =>
      match splitIdent rest with
      | some (id, []) => !(pyKeywords.contains (String.mk id))
      | _ => false
  | _ => false

/-- A class header line: `class <name>:` or `class <name>(<bases>):` with a
non-keyword identifier name and non-keyword identifier bases. -/
def isClassHeaderLine (cs : List Char) : Bool :=
  match cs with
  | 'c' :: 'l' :: 'a' :: 's' :: 's' :: ' ' :: rest =>
      match splitIdent rest with
      | some (id, rest2) =>
          !(pyKeywords.contains (String.mk id)) &&
          match rest2 with
          | [':'] => true
          | '(' :: rest3 => identListThenColon (rest3.length + 1) rest3
          | _ => false
      | none => false
  | _ => false

/-- A class-body line: four spaces of indentation, then `pass` or an
annotated field `name: typeexpr` with a non-keyword identifier name. -/
def isBodyLine (cs : List Char) : Bool :=
  match cs with
  | ' ' :: ' ' :: ' ' :: ' ' :: rest =>
      if rest = ['p', 'a', 's', 's'] then true
      else
        match splitIdent rest with
        | some (id, ':' :: ' ' :: rest2) =>
            !(pyKeywords.contains (String.mk id)) && isValidTypeExprL rest2
        | _ => false
  | _ => false

/-- The decorated-class part of a module: decorator lines, then a header
line, then a non-empty body of body lines. -/
def checkClassPart : List (List Char) → Bool
  | [] => false
  | l :: rest =>
      if isDecoLine l then checkClassPart rest
      else isClassHeaderLine l && !rest.isEmpty && rest.all isBodyLine

/-- A whole generated module: import lines and blank lines, then a
decorated class part. -/
def checkTop : List (List Char) → Bool
  | [] => false
  | l :: rest =>
      if isImportLine l || l.isEmpty then checkTop rest
      else checkClassPart (l :: rest)

/-- Split a character list into its newline-separated lines. -/
def splitLines : List Char → List (List Char)
  | [] => [[]]
  | c :: cs =>
      if c = '\n' then [] :: splitLines cs
      else
        match splitLines cs with
        | [] => [[c]]
        | l :: ls => (c :: l) :: ls

/-- Join lines with newline separators (left inverse of `splitLines` on
newline-free lines). -/
def joinLines : List (List Char) → List Char
  | [] => []
  | [l] => l
  | l :: ls => l ++ '\n' :: joinLines ls

/-- The Python-parseability model: the module's lines are accepted by the
restricted grammar above. -/
def pythonParseable (s : String) : Bool :=
  checkTop (splitLines s.data)

/-- `p` occurs verbatim as a contiguous substring of `s`. -/
def ContainsSubstr (p s : String) : Prop :=
  List.IsInfix p.data s.data

/-! ## State-passing translations for the frame claims

The Python argument dicts are mutable; the following definitions translate
the two argument-consuming loops with the argument dict threaded through as
an explicit state component, so that "the call leaves its argument
unchanged" becomes a theorem about the final state. -/

/-- State-passing translation of the `_build_body_nodes` loop: the `fields`
argument dict is carried as the second state component past every loop
iteration (no statement of the loop writes to it). -/
def buildAnnAssignBodySt (fields : List (String × String)) :
    List BodyStmt × List (String × String) :=
  let st := fields.foldl
    (fun (acc : List BodyStmt × List (String × String)) kv =>
      (acc.1 ++ [BodyStmt.annAssign kv.1 kv.2], acc.2)) ([], fields)
  if st.1.isEmpty then ([BodyStmt.passStmt], st.2) else st

/-- State-passing translation of `infer_fields_from_json`: the `data`
argument dict is carried as the second state component past every loop
iteration; the write `fields[key] = ...` targets the local `fields` dict
(the first component), never `data`. -/
def infer_fields_from_json_st (data : List (String × Json)) :
    List (String × String) × List (String × Json) :=
  data.foldl
    (fun (st : List (String × String) × List (String × Json)) kv =>
      (dictInsert st.1 kv.1 (infer_python_type kv.2), st.2)) ([], data)

/-! ## Helper lemmas -/

theorem list_foldl_append_eq_map {A B : Type} (g : A → B) (l : List A) :
    ∀ acc : List B, l.foldl (fun acc x => acc ++ [g x]) acc = acc ++ l.map g := by
  induction l with
  | nil => simp
  | cons h t ih => intro acc; simp [ih]

theorem buildAnnAssignBody_eq_map (fields : List (String × String))
    (h : fields ≠ []) :
    buildAnnAssignBody fields =
      fields.map (fun kv => BodyStmt.annAssign kv.1 kv.2) := by
  unfold buildAnnAssignBody
  rw [list_foldl_append_eq_map]
  simp only [List.nil_append]
  rw [if_neg]
  simp [List.isEmpty_iff, h]

theorem foldl_body_st (l : List (String × String)) :
    ∀ acc : List BodyStmt × List (String × String),
      l.foldl (fun acc kv => (acc.1 ++ [BodyStmt.annAssign kv.1 kv.2], acc.2)) acc =
        (l.foldl (fun acc kv => acc ++ [BodyStmt.annAssign kv.1 kv.2]) acc.1, acc.2) := by
  induction l with
  | nil => simp
  | cons h t ih => intro acc; simp [ih]

theorem foldl_infer_st (l : List (String × Json)) :
    ∀ acc : List (String × String) × List (String × Json),
      l.foldl (fun st kv => (dictInsert st.1 kv.1 (infer_python_type kv.2), st.2)) acc =
        (l.foldl (fun fields kv => dictInsert fields kv.1 (infer_python_type kv.2)) acc.1,
          acc.2) := by
  induction l with
  | nil => simp
  | cons h t ih => intro acc; simp [ih]

theorem dictInsert_of_not_mem {A : Type} (m : List (String × A)) (k : String)
    (v : A) (h : ∀ kv ∈ m, kv.1 ≠ k) : dictInsert m k v = m ++ [(k, v)] := by
  unfold dictInsert
  rw [if_neg]
  simp only [List.any_eq_true, not_exists, not_and]
  intro kv hkv
  simp [h kv hkv]

theorem foldl_dictInsert_eq_map (data : List (String × Json)) :
    ∀ acc : List (String × String),
      (∀ kv ∈ data, ∀ kv2 ∈ acc, kv2.1 ≠ kv.1) →
      (data.map Prod.fst).Nodup →
      data.foldl (fun fields kv => dictInsert fields kv.1 (infer_python_type kv.2)) acc =
        acc ++ data.map (fun kv => (kv.1, infer_python_type kv.2)) := by
  induction data with
  | nil => simp
  | cons hd tl ih =>
      intro acc hdisj hnodup
      simp only [List.foldl_cons]
      rw [dictInsert_of_not_mem acc hd.1 (infer_python_type hd.2)
        (fun kv2 hkv2 => hdisj hd (List.mem_cons_self _ _) kv2 hkv2)]
      simp only [List.map_cons, List.nodup_cons] at hnodup
      rw [ih (acc ++ [(hd.1, infer_python_type hd.2)]) ?_ hnodup.2]
      · simp
      · intro kv hkv kv2 hkv2
        rcases List.mem_append.1 hkv2 with h2 | h2
        · exact hdisj kv (List.mem_cons_of_mem _ hkv) kv2 h2
        · simp only [List.mem_singleton] at h2
          subst h2
          intro hcontra
          exact hnodup.1 (hcontra ▸ List.mem_map_of_mem Prod.fst hkv)

/-! ## Claim theorems -/

/-- C3: for every non-empty dict whose first key/value pair is `(k, v)`,
`infer_python_type` returns `"dict[" ++ infer_python_type k ++ ", " ++
infer_python_type v ++ "]"`, and for the empty dict it returns
`"dict[str, Any]"`. -/
theorem infer_type_obj_spec (k v : Json) (kvs : List (Json × Json)) :
    infer_python_type (Json.obj ((k, v) :: kvs)) =
      "dict[" ++ infer_python_type k ++ ", " ++ infer_python_type v ++ "]" ∧
    infer_python_type (Json.obj []) = "dict[str, Any]" :=
  ⟨rfl, rfl⟩

/-- C4: for every non-empty list, `infer_python_type` consults only the
first element and returns `"list[" ++ infer_python_type a[0] ++ "]"`; for
the empty list it returns `"list[Any]"`. -/
theorem infer_type_arr_spec (x : Json) (xs : List Json) :
    infer_python_type (Json.arr (x :: xs)) =
      "list[" ++ infer_python_type x ++ "]" ∧
    infer_python_type (Json.arr []) = "list[Any]" :=
  ⟨rfl, rfl⟩

/-- C5: every boolean value is classified as `"bool"`, never as `"int"`:
the boolean branch of the `isinstance` chain precedes the integer branch. -/
theorem infer_type_bool_spec (b : Bool) :
    infer_python_type (Json.bool b) = "bool" ∧
    infer_python_type (Json.bool b) ≠ "int" := by
  refine ⟨rfl, ?_⟩
  show ("bool" : String) ≠ "int"
  decide

theorem string_length_append_left_pos (a b : String) (h : 0 < a.length) :
    0 < (a ++ b).length := by
  rw [String.length_append]
  omega

/-- C8: `infer_python_type` is a total function of the value: every JSON
value (however nested) is mapped to a non-empty type-name string, and any
value kind outside null/bool/int/float/str/list/dict falls back to
`"Any"`.  (Termination is witnessed by the function being accepted as a
total recursive definition.) -/
theorem infer_type_total (v : Json) :
    0 < (infer_python_type v).length ∧
    infer_python_type Json.other = "Any" := by
  refine ⟨?_, rfl⟩
  cases v with
  | null => show 0 < ("None" : String).length; decide
  | bool b => show 0 < ("bool" : String).length; decide
  | int n => show 0 < ("int" : String).length; decide
  | float => show 0 < ("float" : String).length; decide
  | str s => show 0 < ("str" : String).length; decide
  | arr xs =>
      cases xs with
      | nil => show 0 < ("list[Any]" : String).length; decide
      | cons x tl =>
          exact string_length_append_left_pos _ _
            (string_length_append_left_pos _ _ (by decide))
  | obj kvs =>
      cases kvs with
      | nil => show 0 < ("dict[str, Any]" : String).length; decide
      | cons kv tl =>
          obtain ⟨k, w⟩ := kv
          exact string_length_append_left_pos _ _
            (string_length_append_left_pos _ _
              (string_length_append_left_pos _ _
                (string_length_append_left_pos _ _ (by decide))))
  | other => show 0 < ("Any" : String).length; decide

/-- C2: `DataStructureFactory.get_builder` fails exactly on identifiers
outside the five known ones; the failure message contains the offending
identifier verbatim, and on the five known identifiers it returns the
associated builder. -/
theorem get_builder_spec (s : String) :
    (s ∉ ["typed_dict", "dataclass", "pydantic", "namedtuple", "attrs"] →
      DataStructureFactory.get_builder s =
        Except.error ("Unknown builder type: " ++ s) ∧
      ContainsSubstr s ("Unknown builder type: " ++ s)) ∧
    DataStructureFactory.get_builder "typed_dict" = Except.ok TypedDictBuilder ∧
    DataStructureFactory.get_builder "dataclass" = Except.ok DataclassBuilder ∧
    DataStructureFactory.get_builder "pydantic" = Except.ok PydanticBuilder ∧
    DataStructureFactory.get_builder "namedtuple" = Except.ok NamedTupleBuilder ∧
    DataStructureFactory.get_builder "attrs" = Except.ok AttrsBuilder := by
  refine ⟨?_, rfl, rfl, rfl, rfl, rfl⟩
  intro hs
  simp only [List.mem_cons, List.not_mem_nil, or_false, not_or] at hs
  obtain ⟨h1, h2, h3, h4, h5⟩ := hs
  constructor
  · unfold DataStructureFactory.get_builder factoryMapping
    simp only [List.lookup, beq_eq_false_iff_ne.mpr h1, beq_eq_false_iff_ne.mpr h2,
      beq_eq_false_iff_ne.mpr h3, beq_eq_false_iff_ne.mpr h4, beq_eq_false_iff_ne.mpr h5]
  · exact ⟨("Unknown builder type: ").data, [], by simp [String.data_append]⟩

/-- C2 witness: at the offending identifier `"invalid"`, the factory fails
with a message containing `"invalid"`. -/
theorem get_builder_spec_witness :
    ("invalid" : String) ∉ ["typed_dict", "dataclass", "pydantic", "namedtuple", "attrs"] ∧
    (DataStructureFactory.get_builder "invalid" =
        Except.error ("Unknown builder type: " ++ "invalid") ∧
      ContainsSubstr "invalid" ("Unknown builder type: " ++ "invalid")) :=
  ⟨by decide, (get_builder_spec "invalid").1 (by decide)⟩

/-- C6: on an ordered mapping (distinct keys), `infer_fields_from_json`
binds each key, in insertion order, to the inferred type of its value; the
empty mapping maps to the empty mapping, and the documented scenario holds. -/
theorem infer_fields_spec :
    (∀ data : List (String × Json), (data.map Prod.fst).Nodup →
      infer_fields_from_json data =
        data.map (fun kv => (kv.1, infer_python_type kv.2))) ∧
    infer_fields_from_json [] = [] ∧
    infer_fields_from_json
        [("user_id", Json.int 123), ("username", Json.str "alice"),
         ("is_active", Json.bool true)] =
      [("user_id", "int"), ("username", "str"), ("is_active", "bool")] := by
  refine ⟨?_, rfl, rfl⟩
  intro data hnodup
  unfold infer_fields_from_json
  rw [foldl_dictInsert_eq_map data [] (by simp) hnodup]
  simp

/-- C6 witness: the main clause applied at the documented scenario input,
whose keys are distinct. -/
theorem infer_fields_spec_witness :
    ((([("user_id", Json.int 123), ("username", Json.str "alice"),
        ("is_active", Json.bool true)] : List (String × Json)).map Prod.fst).Nodup) ∧
    infer_fields_from_json
        [("user_id", Json.int 123), ("username", Json.str "alice"),
         ("is_active", Json.bool true)] =
      ([("user_id", Json.int 123), ("username", Json.str "alice"),
        ("is_active", Json.bool true)] : List (String × Json)).map
          (fun kv => (kv.1, infer_python_type kv.2)) :=
  ⟨by decide, infer_fields_spec.1 _ (by decide)⟩

/-- C7: each of the five builders carries exactly its variant's fixed
metadata — import (module and symbol), base reference or decorator
reference — and all five render every field of the schema as an annotated
assignment `name: type` in the class body. -/
theorem builder_metadata_spec :
    (∀ (n : String) (f : List (String × String)),
      TypedDictBuilder.buildImports n f = [{ module := "typing", names := ["TypedDict"] }] ∧
      TypedDictBuilder.buildBases n f = ["TypedDict"] ∧
      TypedDictBuilder.buildDecorators n f = []) ∧
    (∀ (n : String) (f : List (String × String)),
      DataclassBuilder.buildImports n f = [{ module := "dataclasses", names := ["dataclass"] }] ∧
      DataclassBuilder.buildBases n f = [] ∧
      DataclassBuilder.buildDecorators n f = ["dataclass"]) ∧
    (∀ (n : String) (f : List (String × String)),
      PydanticBuilder.buildImports n f = [{ module := "pydantic", names := ["BaseModel"] }] ∧
      PydanticBuilder.buildBases n f = ["BaseModel"] ∧
      PydanticBuilder.buildDecorators n f = []) ∧
    (∀ (n : String) (f : List (String × String)),
      NamedTupleBuilder.buildImports n f = [{ module := "typing", names := ["NamedTuple"] }] ∧
      NamedTupleBuilder.buildBases n f = ["NamedTuple"] ∧
      NamedTupleBuilder.buildDecorators n f = []) ∧
    (∀ (n : String) (f : List (String × String)),
      AttrsBuilder.buildImports n f = [{ module := "attr", names := ["define"] }] ∧
      AttrsBuilder.buildBases n f = [] ∧
      AttrsBuilder.buildDecorators n f = ["define"]) ∧
    (∀ b ∈ [TypedDictBuilder, DataclassBuilder, PydanticBuilder,
            NamedTupleBuilder, AttrsBuilder],
      ∀ (n : String) (f : List (String × String)), ∀ kv ∈ f,
        BodyStmt.annAssign kv.1 kv.2 ∈ b.buildBodyNodes n f) := by
  refine ⟨fun n f => ⟨rfl, rfl, rfl⟩, fun n f => ⟨rfl, rfl, rfl⟩,
    fun n f => ⟨rfl, rfl, rfl⟩, fun n f => ⟨rfl, rfl, rfl⟩,
    fun n f => ⟨rfl, rfl, rfl⟩, ?_⟩
  have hbody : ∀ (f : List (String × String)), ∀ kv ∈ f,
      BodyStmt.annAssign kv.1 kv.2 ∈ buildAnnAssignBody f := by
    intro f kv hkv
    rw [buildAnnAssignBody_eq_map f (by rintro rfl; exact (List.not_mem_nil kv) hkv)]
    exact List.mem_map_of_mem _ hkv
  intro b hb n f kv hkv
  simp only [List.mem_cons, List.not_mem_nil, or_false] at hb
  rcases hb with rfl | rfl | rfl | rfl | rfl <;> exact hbody f kv hkv

/-- C7 witness: the body clause applied at `TypedDictBuilder`, the scenario
class name `"User"` and the field `("id", "int")`. -/
theorem builder_metadata_spec_witness :
    TypedDictBuilder ∈ [TypedDictBuilder, DataclassBuilder, PydanticBuilder,
        NamedTupleBuilder, AttrsBuilder] ∧
    (("id", "int") ∈ [(("id" : String), ("int" : String))]) ∧
    BodyStmt.annAssign "id" "int" ∈
      TypedDictBuilder.buildBodyNodes "User" [("id", "int")] :=
  ⟨List.mem_cons_self _ _, List.mem_singleton.mpr rfl,
    builder_metadata_spec.2.2.2.2.2 TypedDictBuilder (List.mem_cons_self _ _)
      "User" [("id", "int")] ("id", "int") (List.mem_singleton.mpr rfl)⟩

/-- C9: every one of the five builders, given an empty field schema, builds
a class body consisting of exactly one `pass` statement and nothing else. -/
theorem build_empty_body_pass :
    ∀ b ∈ [TypedDictBuilder, DataclassBuilder, PydanticBuilder,
           NamedTupleBuilder, AttrsBuilder],
    ∀ name : String, b.buildBodyNodes name [] = [BodyStmt.passStmt] := by
  intro b hb name
  simp only [List.mem_cons, List.not_mem_nil, or_false] at hb
  rcases hb with rfl | rfl | rfl | rfl | rfl <;> rfl

/-- C9 witness: the claim applied at `TypedDictBuilder` and class name
`"Empty"`. -/
theorem build_empty_body_pass_witness :
    TypedDictBuilder ∈ [TypedDictBuilder, DataclassBuilder, PydanticBuilder,
        NamedTupleBuilder, AttrsBuilder] ∧
    TypedDictBuilder.buildBodyNodes "Empty" [] = [BodyStmt.passStmt] :=
  ⟨List.mem_cons_self _ _,
    build_empty_body_pass TypedDictBuilder (List.mem_cons_self _ _) "Empty"⟩

/-- C10: neither the builders' body-construction loop nor
`infer_fields_from_json` mutates its argument dict: in the state-passing
translations the argument state component after the call equals the
argument before it, and the translations compute the same results as the
direct embeddings. -/
theorem arguments_not_mutated :
    (∀ fields : List (String × String),
      (buildAnnAssignBodySt fields).2 = fields ∧
      (buildAnnAssignBodySt fields).1 = buildAnnAssignBody fields) ∧
    (∀ data : List (String × Json),
      (infer_fields_from_json_st data).2 = data ∧
      (infer_fields_from_json_st data).1 = infer_fields_from_json data) := by
  constructor
  · intro fields
    unfold buildAnnAssignBodySt buildAnnAssignBody
    rw [foldl_body_st]
    constructor
    · by_cases h : (fields.foldl (fun acc kv => acc ++ [BodyStmt.annAssign kv.1 kv.2]) []).isEmpty <;>
        simp [h]
    · by_cases h : (fields.foldl (fun acc kv => acc ++ [BodyStmt.annAssign kv.1 kv.2]) []).isEmpty <;>
        simp [h]
  · intro data
    unfold infer_fields_from_json_st infer_fields_from_json
    rw [foldl_infer_st]
    exact ⟨rfl, rfl⟩

/-! ## Lemmas towards the parseability claim -/

/-- The characters an annotation expression can consist of. -/
def tyChar (c : Char) : Bool :=
  isIdentChar c || c = '[' || c = ']' || c = ',' || c = ' '

/-- `r` does not begin with an identifier character. -/
def headNotIdent : List Char → Bool
  | [] => true
  | c :: _ => !isIdentChar c

theorem list_takeWhile_append_of_all {p : Char → Bool} (l r : List Char)
    (h : l.all p = true) : (l ++ r).takeWhile p = l ++ r.takeWhile p := by
  induction l with
  | nil => simp
  | cons c cs ih =>
      simp only [List.all_cons, Bool.and_eq_true] at h
      simp [List.takeWhile, h.1, ih h.2]

theorem list_dropWhile_append_of_all {p : Char → Bool} (l r : List Char)
    (h : l.all p = true) : (l ++ r).dropWhile p = r.dropWhile p := by
  induction l with
  | nil => simp
  | cons c cs ih =>
      simp only [List.all_cons, Bool.and_eq_true] at h
      simp [List.dropWhile, h.1, ih h.2]

theorem list_takeWhile_head_not {p : Char → Bool} (r : List Char)
    (h : (match r with | [] => true | c :: _ => !p c) = true) :
    r.takeWhile p = [] := by
  cases r with
  | nil => rfl
  | cons c cs =>
      simp only [Bool.not_eq_true'] at h
      simp [List.takeWhile, h]

theorem list_dropWhile_head_not {p : Char → Bool} (r : List Char)
    (h : (match r with | [] => true | c :: _ => !p c) = true) :
    r.dropWhile p = r := by
  cases r with
  | nil => rfl
  | cons c cs =>
      simp only [Bool.not_eq_true'] at h
      simp [List.dropWhile, h]

theorem isIdentStart_isIdentChar {c : Char} (h : isIdentStart c = true) :
    isIdentChar c = true := by
  unfold isIdentStart at h
  unfold isIdentChar Char.isAlphanum
  rcases Bool.or_eq_true_iff.1 h with h1 | h1 <;> simp [h1]

/-- Lexing an identifier-shaped token followed by a non-identifier
character splits exactly at the boundary. -/
theorem splitIdent_append (cs r : List Char) (h1 : isIdentShapeL cs = true)
    (h2 : headNotIdent r = true) : splitIdent (cs ++ r) = some (cs, r) := by
  cases cs with
  | nil => exact absurd h1 (by simp [isIdentShapeL])
  | cons c rest =>
      simp only [isIdentShapeL, Bool.and_eq_true] at h1
      simp only [List.cons_append, splitIdent, h1.1, if_true]
      rw [list_takeWhile_append_of_all rest r h1.2,
        list_dropWhile_append_of_all rest r h1.2,
        list_takeWhile_head_not r (by cases r <;> simp_all [headNotIdent]),
        list_dropWhile_head_not r (by cases r <;> simp_all [headNotIdent])]
      simp

/-- What `splitIdent` consumes is the front of the input, and it is all
identifier characters. -/
theorem splitIdent_eq (cs id r : List Char) (h : splitIdent cs = some (id, r)) :
    cs = id ++ r ∧ id.all isIdentChar = true := by
  cases cs with
  | nil => exact absurd h (by simp [splitIdent])
  | cons c rest =>
      simp only [splitIdent] at h
      by_cases hc : isIdentStart c = true
      · rw [if_pos hc] at h
        injection h with h
        injection h with hid hr
        subst hid; subst hr
        constructor
        · simp [List.takeWhile_append_dropWhile]
        · simp only [List.all_cons, Bool.and_eq_true]
          exact ⟨isIdentStart_isIdentChar hc, List.all_takeWhile⟩
      · rw [if_neg hc] at h
        exact absurd h (by simp)

/-- Whatever `parseTy` consumes is a front segment made of annotation
characters. -/
theorem parseTy_consumes : ∀ (fuel : Nat) (mode : Bool) (cs rest : List Char),
    parseTy mode fuel cs = some rest →
    ∃ pre, cs = pre ++ rest ∧ pre.all tyChar = true := by
  intro fuel
  induction fuel with
  | zero =>
      intro mode cs rest h
      exact absurd h (by cases mode <;> simp [parseTy])
  | succ fuel ih =>
      intro mode cs rest h
      cases mode with
      | true =>
          rcases hsi : splitIdent cs with _ | ⟨id, r⟩
          · simp [parseTy, hsi] at h
          · simp only [parseTy, hsi] at h
            obtain ⟨hcs, hall⟩ := splitIdent_eq cs id r hsi
            have hallTy : id.all tyChar = true := by
              rw [List.all_eq_true] at hall ⊢
              intro c hc
              simp [tyChar, hall c hc]
            by_cases hkw : pyNonAtomKeywords.contains (String.mk id) = true
            · rw [if_pos hkw] at h
              exact absurd h (by simp)
            · rw [if_neg hkw] at h
              split at h
              · next rest2 =>
                  obtain ⟨pre2, hpre2, hpre2all⟩ := ih false rest2 rest h
                  refine ⟨id ++ '[' :: pre2, ?_, ?_⟩
                  · rw [hcs, hpre2]; simp
                  · simp only [List.all_append, List.all_cons, Bool.and_eq_true]
                    exact ⟨hallTy, by decide, hpre2all⟩
              · next =>
                  injection h with h
                  subst h
                  exact ⟨id, hcs, hallTy⟩
      | false =>
          rcases hp : parseTy true fuel cs with _ | r
          · simp [parseTy, hp] at h
          · simp only [parseTy, hp] at h
            obtain ⟨pre1, hpre1, hpre1all⟩ := ih true cs r hp
            split at h
            · next rest2 =>
                injection h with h
                subst h
                refine ⟨pre1 ++ [']'], ?_, ?_⟩
                · rw [hpre1]; simp
                · simp only [List.all_append, List.all_cons, Bool.and_eq_true]
                  exact ⟨hpre1all, by decide, by simp⟩
            · next rest2 =>
                obtain ⟨pre2, hpre2, hpre2all⟩ := ih false rest2 rest h
                refine ⟨pre1 ++ ',' :: ' ' :: pre2, ?_, ?_⟩
                · rw [hpre1, hpre2]; simp
                · simp only [List.all_append, List.all_cons, Bool.and_eq_true]
                  exact ⟨hpre1all, by decide, by decide, hpre2all⟩
            · next =>
                simp at h

theorem isValidTypeExprL_all (cs : List Char) (h : isValidTypeExprL cs = true) :
    cs.all tyChar = true := by
  unfold isValidTypeExprL at h
  split at h
  · next heq =>
      obtain ⟨pre, hpre, hall⟩ := parseTy_consumes _ true cs [] heq
      rw [List.append_nil] at hpre
      rw [hpre]
      exact hall
  · exact absurd h (by simp)

theorem all_tyChar_no_newline (cs : List Char) (h : cs.all tyChar = true) :
    '\n' ∉ cs := by
  intro hmem
  rw [List.all_eq_true] at h
  have := h '\n' hmem
  simp [tyChar, isIdentChar, Char.isAlphanum, Char.isAlpha, Char.isUpper,
    Char.isLower, Char.isDigit] at this

theorem identShape_no_newline (cs : List Char) (h : isIdentShapeL cs = true) :
    '\n' ∉ cs := by
  cases cs with
  | nil => simp
  | cons c rest =>
      simp only [isIdentShapeL, Bool.and_eq_true] at h
      intro hmem
      rcases List.mem_cons.1 hmem with heq | hmem2
      · rw [← heq] at h
        simp [isIdentStart, Char.isAlpha, Char.isUpper, Char.isLower] at h
      · rw [List.all_eq_true] at h
        have := h.2 '\n' hmem2
        simp [isIdentChar, Char.isAlphanum, Char.isAlpha, Char.isUpper,
          Char.isLower, Char.isDigit] at this

/-- The tail part of joined lines: each line preceded by a newline. -/
def nlJoin : List (List Char) → List Char
  | [] => []
  | l :: ls => '\n' :: (l ++ nlJoin ls)

theorem joinLines_cons (l : List Char) (ls : List (List Char)) :
    joinLines (l :: ls) = l ++ nlJoin ls := by
  cases ls with
  | nil => simp [joinLines, nlJoin]
  | cons l2 ls2 =>
      simp only [joinLines, nlJoin]
      rw [joinLines_cons l2 ls2]

theorem nlJoin_append (a b : List (List Char)) :
    nlJoin (a ++ b) = nlJoin a ++ nlJoin b := by
  induction a with
  | nil => simp [nlJoin]
  | cons l ls ih => simp [nlJoin, ih]

theorem splitLines_of_no_newline (a : List Char) (h : '\n' ∉ a) :
    splitLines a = [a] := by
  induction a with
  | nil => rfl
  | cons c cs ih =>
      have hc : ¬c = '\n' := fun hcontra => h (hcontra ▸ List.mem_cons_self c cs)
      have hcs : '\n' ∉ cs := fun hmem => h (List.mem_cons_of_mem c hmem)
      simp only [splitLines, if_neg hc, ih hcs]

theorem splitLines_append_newline (a b : List Char) (h : '\n' ∉ a) :
    splitLines (a ++ '\n' :: b) = a :: splitLines b := by
  induction a with
  | nil => simp [splitLines]
  | cons c cs ih =>
      have hc : ¬c = '\n' := fun hcontra => h (hcontra ▸ List.mem_cons_self c cs)
      have hcs : '\n' ∉ cs := fun hmem => h (List.mem_cons_of_mem c hmem)
      simp only [List.cons_append, splitLines, if_neg hc, List.append_eq, ih hcs]

theorem splitLines_joinLines : ∀ L : List (List Char), L ≠ [] →
    (∀ l ∈ L, '\n' ∉ l) → splitLines (joinLines L) = L := by
  intro L
  induction L with
  | nil => intro h; exact absurd rfl h
  | cons l ls ih =>
      intro _ hnl
      cases ls with
      | nil =>
          show splitLines (joinLines [l]) = [l]
          simp only [joinLines]
          exact splitLines_of_no_newline l (hnl l (List.mem_cons_self _ _))
      | cons l2 ls2 =>
          show splitLines (joinLines (l :: l2 :: ls2)) = l :: l2 :: ls2
          simp only [joinLines]
          rw [splitLines_append_newline l _ (hnl l (List.mem_cons_self _ _))]
          rw [ih (by simp) (fun x hx => hnl x (List.mem_cons_of_mem l hx))]

/-- The characters of an unparsed import line. -/
def importLineChars (im : PyImportFrom) : List Char :=
  ("from ").data ++ im.module.data ++ (" import ").data ++
    (String.intercalate (", ") im.names).data

/-- The characters of an unparsed decorator line. -/
def decoLineChars (d : String) : List Char :=
  '@' :: d.data

/-- The characters of an unparsed class header line. -/
def headerLineChars (name : String) (bases : List String) : List Char :=
  ("class ").data ++ name.data ++
    (if bases.isEmpty then ("" : String)
     else "(" ++ String.intercalate (", ") bases ++ ")").data ++ [':']

/-- The characters of an unparsed class-body line (past the newline). -/
def bodyLineChars : BodyStmt → List Char
  | .annAssign t ty => ("    ").data ++ t.data ++ (": ").data ++ ty.data
  | .passStmt => ("    ").data ++ ("pass").data

theorem string_ne_empty_iff (s : String) : s ≠ "" ↔ s.data ≠ [] := by
  constructor
  · intro h hc
    exact h (String.ext hc)
  · intro h hc
    exact h (by rw [hc])

theorem append_ne_empty_right (s t : String) (h : t ≠ "") : s ++ t ≠ "" := by
  rw [string_ne_empty_iff] at h ⊢
  rw [String.data_append]
  intro hc
  exact h (List.append_eq_nil.1 hc).2

theorem append_ne_empty_left (s t : String) (h : s ≠ "") : s ++ t ≠ "" := by
  rw [string_ne_empty_iff] at h ⊢
  rw [String.data_append]
  intro hc
  exact h (List.append_eq_nil.1 hc).1

theorem data_maybeNL (s : String) (h : s ≠ "") :
    (maybeNL s).data = s.data ++ ['\n'] := by
  rw [maybeNL, if_neg h, String.data_append]

theorem maybeNL_ne_empty (s : String) (h : s ≠ "") : maybeNL s ≠ "" := by
  rw [maybeNL, if_neg h]
  exact append_ne_empty_right s "\n" (by decide)

theorem data_foldl_unparseImport (ims : List PyImportFrom) :
    ∀ s : String, s ≠ "" →
      (ims.foldl unparseImport s).data =
        s.data ++ nlJoin (ims.map importLineChars) ∧
      ims.foldl unparseImport s ≠ "" := by
  induction ims with
  | nil => intro s hs; exact ⟨by simp [nlJoin], hs⟩
  | cons im rest ih =>
      intro s hs
      have hne : unparseImport s im ≠ "" := by
        unfold unparseImport
        exact append_ne_empty_left _ _
          (append_ne_empty_right _ (" import ") (by decide))
      have hdata : (unparseImport s im).data =
          s.data ++ '\n' :: importLineChars im := by
        unfold unparseImport
        simp only [String.data_append, data_maybeNL s hs, importLineChars]
        simp
      simp only [List.foldl_cons, List.map_cons, nlJoin]
      obtain ⟨h1, h2⟩ := ih (unparseImport s im) hne
      rw [h1, hdata]
      refine ⟨by simp, h2⟩

theorem data_foldl_deco (ds : List String) :
    ∀ s : String, s ≠ "" →
      (ds.foldl (fun a d => maybeNL a ++ "@" ++ d) s).data =
        s.data ++ nlJoin (ds.map decoLineChars) ∧
      ds.foldl (fun a d => maybeNL a ++ "@" ++ d) s ≠ "" := by
  induction ds with
  | nil => intro s hs; exact ⟨by simp [nlJoin], hs⟩
  | cons d rest ih =>
      intro s hs
      have hne : maybeNL s ++ "@" ++ d ≠ "" :=
        append_ne_empty_left _ _ (append_ne_empty_right _ ("@") (by decide))
      have hdata : (maybeNL s ++ "@" ++ d).data =
          s.data ++ '\n' :: decoLineChars d := by
        simp only [String.data_append, data_maybeNL s hs, decoLineChars]
        simp
      simp only [List.foldl_cons, List.map_cons, nlJoin]
      obtain ⟨h1, h2⟩ := ih (maybeNL s ++ "@" ++ d) hne
      rw [h1, hdata]
      refine ⟨by simp, h2⟩

theorem data_foldl_unparseBody (body : List BodyStmt) :
    ∀ s : String, s ≠ "" →
      (body.foldl unparseBody s).data =
        s.data ++ nlJoin (body.map bodyLineChars) := by
  induction body with
  | nil => intro s hs; simp [nlJoin]
  | cons st rest ih =>
      intro s hs
      have hne : unparseBody s st ≠ "" := by
        cases st with
        | annAssign t ty =>
            exact append_ne_empty_left _ _
              (append_ne_empty_right _ (": ") (by decide))
        | passStmt =>
            exact append_ne_empty_right _ ("pass") (by decide)
      have hdata : (unparseBody s st).data =
          s.data ++ '\n' :: bodyLineChars st := by
        cases st with
        | annAssign t ty =>
            simp only [unparseBody, String.data_append, data_maybeNL s hs,
              bodyLineChars]
            simp
        | passStmt =>
            simp only [unparseBody, String.data_append, data_maybeNL s hs,
              bodyLineChars]
            simp
      simp only [List.foldl_cons, List.map_cons, nlJoin]
      rw [ih (unparseBody s st) hne, hdata]
      simp

/-- The characters of a generated module are its lines joined by newlines:
the import lines, a blank line, the decorator lines, the class header, and
the body lines. -/
theorem data_unparseModule (im : PyImportFrom) (ims : List PyImportFrom)
    (c : PyClassDef) :
    (unparseModule ⟨im :: ims, c⟩).data =
      joinLines (importLineChars im :: (ims.map importLineChars ++ [[]] ++
        c.decorators.map decoLineChars ++ [headerLineChars c.name c.bases] ++
        c.body.map bodyLineChars)) := by
  have h0 : (unparseImport "" im).data = importLineChars im := by
    unfold unparseImport importLineChars
    simp [String.data_append, maybeNL]
  have h0ne : unparseImport "" im ≠ "" := by
    unfold unparseImport
    exact append_ne_empty_left _ _
      (append_ne_empty_right _ (" import ") (by decide))
  obtain ⟨hs0, hs0ne⟩ :=
    data_foldl_unparseImport ims (unparseImport "" im) h0ne
  obtain ⟨hdec, hdecne⟩ :=
    data_foldl_deco c.decorators
      (maybeNL (ims.foldl unparseImport (unparseImport "" im)))
      (maybeNL_ne_empty _ hs0ne)
  have hheadne :
      maybeNL (c.decorators.foldl (fun a d => maybeNL a ++ "@" ++ d)
          (maybeNL (ims.foldl unparseImport (unparseImport "" im)))) ++
        "class " ++ c.name ++
        (if c.bases.isEmpty then ""
         else "(" ++ String.intercalate (", ") c.bases ++ ")") ++ ":" ≠ "" :=
    append_ne_empty_right _ (":") (by decide)
  simp only [unparseModule, unparseClass, List.foldl_cons]
  rw [data_foldl_unparseBody c.body _ hheadne]
  simp only [String.data_append]
  rw [data_maybeNL _ hdecne, hdec,
    data_maybeNL _ hs0ne, hs0, h0]
  simp only [joinLines_cons, nlJoin_append, nlJoin, headerLineChars]
  simp [List.append_assoc]

theorem string_mk_data (s : String) : String.mk s.data = s := rfl

theorem isPyIdent_parts (s : String) (h : isPyIdent s = true) :
    isIdentShapeL s.data = true ∧ s ∉ pyKeywords := by
  unfold isPyIdent at h
  rw [Bool.and_eq_true] at h
  exact ⟨h.1, by simpa using h.2⟩

/-- A baseless `class <name>:` header line is accepted when `<name>` is a
valid identifier. -/
theorem isClassHeaderLine_noBase (name : String) (h : isPyIdent name = true) :
    isClassHeaderLine (("class ").data ++ name.data ++ [':']) = true := by
  obtain ⟨hshape, hkw⟩ := isPyIdent_parts name h
  have hsi := splitIdent_append name.data [':'] hshape (by decide)
  show isClassHeaderLine
    ('c' :: 'l' :: 'a' :: 's' :: 's' :: ' ' :: (name.data ++ [':'])) = true
  simp [isClassHeaderLine, hsi, string_mk_data, hkw]

/-- A `class <name>(<base>):` header line is accepted when both names are
valid identifiers. -/
theorem isClassHeaderLine_oneBase (name B : String) (h : isPyIdent name = true)
    (hB : isPyIdent B = true) :
    isClassHeaderLine
      (("class ").data ++ name.data ++ ('(' :: (B.data ++ [')', ':']))) = true := by
  obtain ⟨hshape, hkw⟩ := isPyIdent_parts name h
  obtain ⟨hshapeB, hkwB⟩ := isPyIdent_parts B hB
  have hsi := splitIdent_append name.data ('(' :: (B.data ++ [')', ':'])) hshape
    (by show (!isIdentChar '(') = true; decide)
  have hsiB := splitIdent_append B.data [')', ':'] hshapeB (by decide)
  show isClassHeaderLine ('c' :: 'l' :: 'a' :: 's' :: 's' :: ' ' ::
    (name.data ++ ('(' :: (B.data ++ [')', ':'])))) = true
  simp only [isClassHeaderLine, hsi, string_mk_data]
  rw [Bool.and_eq_true]
  refine ⟨by simp [hkw], ?_⟩
  simp only [identListThenColon, hsiB, string_mk_data]
  simp [hkwB]

/-- An indented `name: typeexpr` line is accepted when the name is a valid
identifier and the annotation is a valid annotation expression. -/
theorem isBodyLine_ann (f t : String) (hf : isPyIdent f = true)
    (ht : isValidTypeExprL t.data = true) :
    isBodyLine (bodyLineChars (BodyStmt.annAssign f t)) = true := by
  obtain ⟨hshape, hkw⟩ := isPyIdent_parts f hf
  have hsi := splitIdent_append f.data (':' :: ' ' :: t.data) hshape
    (by show (!isIdentChar ':') = true; decide)
  show isBodyLine
    (' ' :: ' ' :: ' ' :: ' ' :: ((f.data ++ [':', ' ']) ++ t.data)) = true
  rw [List.append_assoc]
  have hne : ¬(f.data ++ [':', ' '] ++ t.data = ['p', 'a', 's', 's']) := by
    intro hc
    have hcolon : ':' ∈ f.data ++ [':', ' '] ++ t.data := by
      rw [List.append_assoc]
      exact List.mem_append_right _ (List.mem_cons_self _ _)
    rw [hc] at hcolon
    simp at hcolon
  rw [List.append_assoc] at hne
  simp only [isBodyLine, List.cons_append, List.nil_append, if_neg hne, hsi,
    string_mk_data]
  simp [hkw, ht]

theorem isBodyLine_pass : isBodyLine (bodyLineChars BodyStmt.passStmt) = true := by
  decide

theorem headerLineChars_no_newline (name : String) (bases : List String)
    (hn : isIdentShapeL name.data = true)
    (hb : '\n' ∉ (if bases.isEmpty then ("" : String)
      else "(" ++ String.intercalate (", ") bases ++ ")").data) :
    '\n' ∉ headerLineChars name bases := by
  unfold headerLineChars
  intro hmem
  rcases List.mem_append.1 hmem with hmem | hmem
  · rcases List.mem_append.1 hmem with hmem | hmem
    · rcases List.mem_append.1 hmem with hmem | hmem
      · simp at hmem
      · exact identShape_no_newline name.data hn hmem
    · exact hb hmem
  · simp at hmem

theorem bodyLineChars_ann_no_newline (f t : String)
    (hf : isIdentShapeL f.data = true) (ht : isValidTypeExprL t.data = true) :
    '\n' ∉ bodyLineChars (BodyStmt.annAssign f t) := by
  unfold bodyLineChars
  intro hmem
  rcases List.mem_append.1 hmem with hmem | hmem
  · rcases List.mem_append.1 hmem with hmem | hmem
    · rcases List.mem_append.1 hmem with hmem | hmem
      · simp at hmem
      · exact identShape_no_newline f.data hf hmem
    · simp at hmem
  · exact all_tyChar_no_newline t.data (isValidTypeExprL_all t.data ht) hmem

theorem decoLineChars_no_newline (d : String) (hd : isIdentShapeL d.data = true) :
    '\n' ∉ decoLineChars d := by
  unfold decoLineChars
  intro hmem
  rcases List.mem_cons.1 hmem with hmem | hmem
  · simp at hmem
  · exact identShape_no_newline d.data hd hmem

theorem checkClassPart_of (ds : List (List Char))
    (hd : ∀ l ∈ ds, isDecoLine l = true) (header : List Char)
    (hh : isClassHeaderLine header = true) (hhd : isDecoLine header = false)
    (body : List (List Char)) (hb : body ≠ [])
    (hball : ∀ l ∈ body, isBodyLine l = true) :
    checkClassPart (ds ++ header :: body) = true := by
  induction ds with
  | nil =>
      simp only [List.nil_append, checkClassPart]
      rw [if_neg (by simp [hhd])]
      simp only [hh, Bool.true_and, Bool.and_eq_true, Bool.not_eq_true']
      refine ⟨by simp [List.isEmpty_iff, hb], ?_⟩
      rw [List.all_eq_true]
      exact hball
  | cons d rest ih =>
      simp only [List.cons_append, checkClassPart]
      rw [if_pos (by simp [hd d (List.mem_cons_self _ _)])]
      exact ih (fun l hl => hd l (List.mem_cons_of_mem _ hl))

theorem checkTop_skip (pre : List (List Char))
    (hpre : ∀ l ∈ pre, isImportLine l = true ∨ l.isEmpty = true)
    (l0 : List Char) (rest : List (List Char))
    (h0 : isImportLine l0 = false) (h0e : l0.isEmpty = false) :
    checkTop (pre ++ l0 :: rest) = checkClassPart (l0 :: rest) := by
  induction pre with
  | nil =>
      simp only [List.nil_append, checkTop]
      rw [if_neg (by simp [h0, h0e])]
  | cons p ps ih =>
      simp only [List.cons_append, checkTop]
      rw [if_pos ?_]
      · exact ih (fun l hl => hpre l (List.mem_cons_of_mem _ hl))
      · rcases hpre p (List.mem_cons_self _ _) with h | h <;> simp [h]

theorem headerLineChars_not_empty (n : String) (b : List String) :
    (headerLineChars n b).isEmpty = false := by
  unfold headerLineChars
  simp [List.isEmpty_iff]

theorem checkTop_module (pre ds : List (List Char)) (header : List Char)
    (body : List (List Char))
    (hpre : ∀ l ∈ pre, isImportLine l = true ∨ l.isEmpty = true)
    (hd : ∀ l ∈ ds, isDecoLine l = true ∧ isImportLine l = false ∧
      l.isEmpty = false)
    (hh : isClassHeaderLine header = true) (hhd : isDecoLine header = false)
    (hhi : isImportLine header = false) (hhe : header.isEmpty = false)
    (hb : body ≠ []) (hball : ∀ l ∈ body, isBodyLine l = true) :
    checkTop (pre ++ ds ++ header :: body) = true := by
  cases ds with
  | nil =>
      simp only [List.append_nil]
      rw [checkTop_skip pre hpre header body hhi hhe]
      have := checkClassPart_of [] (by simp) header hh hhd body hb hball
      simpa using this
  | cons d rest =>
      have hone := hd d (List.mem_cons_self _ _)
      rw [List.append_assoc, List.cons_append,
        checkTop_skip pre hpre d (rest ++ header :: body) hone.2.1 hone.2.2]
      have := checkClassPart_of (d :: rest)
        (fun l hl => (hd l hl).1) header hh hhd body hb hball
      simpa using this

/-- Generated modules with one import, decorator/base identifiers in
order, a valid class name, a non-empty body of accepted lines, and no
newlines inside any line, pass the Python parseability check. -/
theorem pythonParseable_build (im : PyImportFrom) (c : PyClassDef)
    (hImp : isImportLine (importLineChars im) = true)
    (hImpNL : '\n' ∉ importLineChars im)
    (hdecoOK : ∀ d ∈ c.decorators, isDecoLine (decoLineChars d) = true)
    (hdecoImp : ∀ d ∈ c.decorators, isImportLine (decoLineChars d) = false)
    (hdecoNL : ∀ d ∈ c.decorators, '\n' ∉ decoLineChars d)
    (hheader : isClassHeaderLine (headerLineChars c.name c.bases) = true)
    (hheaderDeco : isDecoLine (headerLineChars c.name c.bases) = false)
    (hheaderImp : isImportLine (headerLineChars c.name c.bases) = false)
    (hheaderNL : '\n' ∉ headerLineChars c.name c.bases)
    (hbodyne : c.body ≠ [])
    (hbody : ∀ st ∈ c.body, isBodyLine (bodyLineChars st) = true)
    (hbodyNL : ∀ st ∈ c.body, '\n' ∉ bodyLineChars st) :
    pythonParseable (unparseModule ⟨[im], c⟩) = true := by
  unfold pythonParseable
  rw [data_unparseModule im [] c]
  rw [splitLines_joinLines _ (by simp) ?hnl]
  case hnl =>
    intro l hl
    simp only [List.map_nil, List.nil_append] at hl
    rcases List.mem_cons.1 hl with rfl | hl
    · exact hImpNL
    rcases List.mem_append.1 hl with hl | hl
    · rcases List.mem_append.1 hl with hl | hl
      · rcases List.mem_append.1 hl with hl | hl
        · simp only [List.mem_singleton] at hl
          subst hl
          simp
        · obtain ⟨d, hd, rfl⟩ := List.mem_map.1 hl
          exact hdecoNL d hd
      · simp only [List.mem_singleton] at hl
        subst hl
        exact hheaderNL
    · obtain ⟨st, hst, rfl⟩ := List.mem_map.1 hl
      exact hbodyNL st hst
  have hmain := checkTop_module [importLineChars im, []]
    (c.decorators.map decoLineChars) (headerLineChars c.name c.bases)
    (c.body.map bodyLineChars)
    (by
      intro l hl
      rcases List.mem_cons.1 hl with rfl | hl2
      · exact Or.inl hImp
      · simp only [List.mem_singleton] at hl2
        subst hl2
        exact Or.inr rfl)
    (by
      intro l hl
      obtain ⟨d, hd, rfl⟩ := List.mem_map.1 hl
      exact ⟨hdecoOK d hd, hdecoImp d hd, rfl⟩)
    hheader hheaderDeco hheaderImp (headerLineChars_not_empty _ _)
    (by simp [hbodyne])
    (by
      intro l hl
      obtain ⟨st, hst, rfl⟩ := List.mem_map.1 hl
      exact hbody st hst)
  simpa using hmain

theorem mem_nlJoin_infix (l : List Char) (L : List (List Char)) (h : l ∈ L) :
    List.IsInfix l (nlJoin L) := by
  induction L with
  | nil => simp at h
  | cons l0 ls ih =>
      rcases List.mem_cons.1 h with rfl | h2
      · exact ⟨['\n'], nlJoin ls, by simp [nlJoin]⟩
      · exact (ih h2).trans ⟨'\n' :: l0, [], by simp [nlJoin]⟩

theorem infix_append_left_list {a Y : List Char} (X : List Char)
    (h : List.IsInfix a Y) : List.IsInfix a (X ++ Y) := by
  obtain ⟨s, t, e⟩ := h
  exact ⟨X ++ s, t, by rw [← e]; simp⟩

/-- Every field rendered into the class body appears verbatim as
`name: type` in the generated module text. -/
theorem build_contains_field (im : PyImportFrom) (c : PyClassDef)
    (f t : String) (hkv : BodyStmt.annAssign f t ∈ c.body) :
    ContainsSubstr (f ++ ": " ++ t) (unparseModule ⟨[im], c⟩) := by
  unfold ContainsSubstr
  rw [data_unparseModule im [] c]
  have h1 : List.IsInfix (f ++ ": " ++ t).data
      (bodyLineChars (BodyStmt.annAssign f t)) := by
    refine ⟨("    ").data, [], ?_⟩
    simp [bodyLineChars, String.data_append]
  have h2 : List.IsInfix (bodyLineChars (BodyStmt.annAssign f t))
      (nlJoin (c.body.map bodyLineChars)) :=
    mem_nlJoin_infix _ _ (List.mem_map_of_mem bodyLineChars hkv)
  refine (h1.trans (h2.trans ?_))
  rw [joinLines_cons]
  apply infix_append_left_list
  simp only [List.map_nil, List.nil_append]
  rw [nlJoin_append]
  exact infix_append_left_list _ (List.infix_rfl)

theorem headerLineChars_noBase_eq (name : String) :
    headerLineChars name [] = ("class ").data ++ name.data ++ [':'] := by
  unfold headerLineChars
  simp

theorem headerLineChars_oneBase_eq (name B : String) :
    headerLineChars name [B] =
      ("class ").data ++ name.data ++ ('(' :: (B.data ++ [')', ':'])) := by
  unfold headerLineChars
  have hB : String.intercalate (", ") [B] = B := rfl
  simp only [List.isEmpty_cons, if_false, hB, String.data_append,
    Bool.false_eq_true]
  simp [List.append_assoc]

theorem isDecoLine_of (d : String) (h : isPyIdent d = true) :
    isDecoLine (decoLineChars d) = true := by
  obtain ⟨hshape, hkw⟩ := isPyIdent_parts d h
  have hsi := splitIdent_append d.data [] hshape (by decide)
  rw [List.append_nil] at hsi
  show isDecoLine ('@' :: d.data) = true
  simp [isDecoLine, hsi, string_mk_data, hkw]

theorem buildAnnAssignBody_ne_nil (fields : List (String × String)) :
    buildAnnAssignBody fields ≠ [] := by
  cases fields with
  | nil => simp [buildAnnAssignBody]
  | cons kv rest =>
      rw [buildAnnAssignBody_eq_map _ (by simp)]
      simp

theorem buildAnnAssignBody_mem (fields : List (String × String))
    (st : BodyStmt) (h : st ∈ buildAnnAssignBody fields) :
    st = BodyStmt.passStmt ∨
      ∃ kv ∈ fields, st = BodyStmt.annAssign kv.1 kv.2 := by
  cases fields with
  | nil =>
      simp only [buildAnnAssignBody, List.foldl_nil, List.isEmpty_nil,
        if_true, List.mem_singleton] at h
      exact Or.inl h
  | cons kv rest =>
      rw [buildAnnAssignBody_eq_map _ (by simp)] at h
      obtain ⟨kv2, hkv2, rfl⟩ := List.mem_map.1 h
      exact Or.inr ⟨kv2, hkv2, rfl⟩

theorem buildAnnAssignBody_mem_of (fields : List (String × String))
    (kv : String × String) (h : kv ∈ fields) :
    BodyStmt.annAssign kv.1 kv.2 ∈ buildAnnAssignBody fields := by
  rw [buildAnnAssignBody_eq_map fields
    (by rintro rfl; exact (List.not_mem_nil kv) h)]
  exact List.mem_map_of_mem _ h

/-- Core well-formedness lemma: a generated module with one import, any
decorator identifiers, a valid class name and header, and the standard
field body, is parseable and contains every field as `name: type`. -/
theorem build_shape_ok (im : PyImportFrom) (bases decos : List String)
    (hImp : isImportLine (importLineChars im) = true)
    (hImpNL : '\n' ∉ importLineChars im)
    (hdecoPy : ∀ d ∈ decos, isPyIdent d = true)
    (name : String) (hn : isPyIdent name = true)
    (hhead : isClassHeaderLine (headerLineChars name bases) = true)
    (hbNL : '\n' ∉ (if bases.isEmpty then ("" : String)
      else "(" ++ String.intercalate (", ") bases ++ ")").data)
    (fields : List (String × String))
    (hf : ∀ kv ∈ fields, isPyIdent kv.1 = true ∧
      isValidTypeExprL kv.2.data = true) :
    pythonParseable (unparseModule ⟨[im],
      { name := name, bases := bases, decorators := decos,
        body := buildAnnAssignBody fields }⟩) = true ∧
    ∀ kv ∈ fields, ContainsSubstr (kv.1 ++ ": " ++ kv.2)
      (unparseModule ⟨[im],
        { name := name, bases := bases, decorators := decos,
          body := buildAnnAssignBody fields }⟩) := by
  constructor
  · apply pythonParseable_build
    · exact hImp
    · exact hImpNL
    · exact fun d hd => isDecoLine_of d (hdecoPy d hd)
    · exact fun d hd => rfl
    · exact fun d hd =>
        decoLineChars_no_newline d (isPyIdent_parts d (hdecoPy d hd)).1
    · exact hhead
    · exact rfl
    · exact rfl
    · exact headerLineChars_no_newline name bases (isPyIdent_parts name hn).1 hbNL
    · exact buildAnnAssignBody_ne_nil fields
    · intro st hst
      rcases buildAnnAssignBody_mem fields st hst with rfl | ⟨kv, hkv, rfl⟩
      · exact isBodyLine_pass
      · exact isBodyLine_ann kv.1 kv.2 (hf kv hkv).1 (hf kv hkv).2
    · intro st hst
      rcases buildAnnAssignBody_mem fields st hst with rfl | ⟨kv, hkv, rfl⟩
      · decide
      · exact bodyLineChars_ann_no_newline kv.1 kv.2
          (isPyIdent_parts kv.1 (hf kv hkv).1).1 (hf kv hkv).2
  · intro kv hkv
    exact build_contains_field im _ kv.1 kv.2
      (buildAnnAssignBody_mem_of fields kv hkv)

/-- C1 counterexample: with the class name `"1bad"` (not a valid Python
identifier), `build` emits `class 1bad(TypedDict):`, which Python's
grammar rejects — so the output is not parseable for every class name. -/
theorem build_invalid_name_not_parseable :
    DataStructureBuilder.build TypedDictBuilder "1bad" [] =
      "from typing import TypedDict\n\nclass 1bad(TypedDict):\n    pass" ∧
    pythonParseable (DataStructureBuilder.build TypedDictBuilder "1bad" []) =
      false := by
  constructor
  · rfl
  · decide

/-- C1 (amended): for every one of the five builders, every class name
that is a valid Python identifier, and every FieldSchema whose field names
are valid Python identifiers and whose types are well-formed annotation
expressions (as all inferred types are), the built source is parseable by
the Python grammar model and contains every `(field, type)` pair verbatim
as the substring `"<field>: <type>"`. -/
theorem build_parseable_and_contains_fields (b : DataStructureBuilder)
    (hb : b ∈ [TypedDictBuilder, DataclassBuilder, PydanticBuilder,
               NamedTupleBuilder, AttrsBuilder])
    (name : String) (hn : isPyIdent name = true)
    (fields : List (String × String))
    (hf : ∀ kv ∈ fields, isPyIdent kv.1 = true ∧
      isValidTypeExprL kv.2.data = true) :
    pythonParseable (b.build name fields) = true ∧
    ∀ kv ∈ fields, ContainsSubstr (kv.1 ++ ": " ++ kv.2)
      (b.build name fields) := by
  simp only [List.mem_cons, List.not_mem_nil, or_false] at hb
  rcases hb with rfl | rfl | rfl | rfl | rfl
  · exact build_shape_ok ⟨"typing", ["TypedDict"]⟩ ["TypedDict"] []
      (by decide) (by decide) (by simp) name hn
      (by
        rw [headerLineChars_oneBase_eq]
        exact isClassHeaderLine_oneBase name "TypedDict" hn (by decide))
      (by decide) fields hf
  · exact build_shape_ok ⟨"dataclasses", ["dataclass"]⟩ [] ["dataclass"]
      (by decide) (by decide) (by decide) name hn
      (by
        rw [headerLineChars_noBase_eq]
        exact isClassHeaderLine_noBase name hn)
      (by simp) fields hf
  · exact build_shape_ok ⟨"pydantic", ["BaseModel"]⟩ ["BaseModel"] []
      (by decide) (by decide) (by simp) name hn
      (by
        rw [headerLineChars_oneBase_eq]
        exact isClassHeaderLine_oneBase name "BaseModel" hn (by decide))
      (by decide) fields hf
  · exact build_shape_ok ⟨"typing", ["NamedTuple"]⟩ ["NamedTuple"] []
      (by decide) (by decide) (by simp) name hn
      (by
        rw [headerLineChars_oneBase_eq]
        exact isClassHeaderLine_oneBase name "NamedTuple" hn (by decide))
      (by decide) fields hf
  · exact build_shape_ok ⟨"attr", ["define"]⟩ [] ["define"]
      (by decide) (by decide) (by decide) name hn
      (by
        rw [headerLineChars_noBase_eq]
        exact isClassHeaderLine_noBase name hn)
      (by simp) fields hf

/-- C1 witness: the amended claim applied at `TypedDictBuilder`, class
name `"User"` and fields `id: int, name: str`. -/
theorem build_parseable_and_contains_fields_witness :
    (TypedDictBuilder ∈ [TypedDictBuilder, DataclassBuilder, PydanticBuilder,
        NamedTupleBuilder, AttrsBuilder]) ∧
    isPyIdent "User" = true ∧
    (∀ kv ∈ ([("id", "int"), ("name", "str")] : List (String × String)),
      isPyIdent kv.1 = true ∧ isValidTypeExprL kv.2.data = true) ∧
    (pythonParseable
        (TypedDictBuilder.build "User" [("id", "int"), ("name", "str")]) = true ∧
      ∀ kv ∈ ([("id", "int"), ("name", "str")] : List (String × String)),
        ContainsSubstr (kv.1 ++ ": " ++ kv.2)
          (TypedDictBuilder.build "User" [("id", "int"), ("name", "str")])) :=
  ⟨List.mem_cons_self _ _, by decide, by decide,
    build_parseable_and_contains_fields TypedDictBuilder
      (List.mem_cons_self _ _) "User" (by decide) _ (by decide)⟩
